import Mathlib

/-!
Shallow embedding of the bazel-docs devsite-to-Hugo conversion pipeline.

The definitions below are translated from the Python sources
`convert_reference_docs.py` and `devsite_to_hugo_converter.py`.
Text is modelled as `List Char`; a "line" is a `List Char` without `'\n'`
(except in the keepends splitting used by the code-fence annotator, where
lines retain their trailing newline, as `str.splitlines(keepends=True)`
returns them).  Python's `\s` / `str.strip()` whitespace is modelled by the
ASCII whitespace characters.
-/

/-- Left brace character, written via its code point. -/
def lbrace : Char := Char.ofNat 123

/-- Right brace character, written via its code point. -/
def rbrace : Char := Char.ofNat 125

/-- ASCII whitespace as recognised by Python `\s` and `str.strip`. -/
def pyWs (c : Char) : Bool :=
  c = ' ' || c = '\t' || c = '\n' || c = '\r' || c = Char.ofNat 11 || c = Char.ofNat 12

/-- Python `str.lstrip()`. -/
def lstripWs (s : List Char) : List Char := s.dropWhile pyWs

/-- Python `str.rstrip()`. -/
def rstripWs (s : List Char) : List Char := (s.reverse.dropWhile pyWs).reverse

/-- Python `str.strip()`. -/
def stripWs (s : List Char) : List Char := rstripWs (lstripWs s)

/-- Python `str.split(sep)` for a one-character separator. -/
def splitOnChar (sep : Char) : List Char → List (List Char)
  | [] => [[]]
  | c :: rest =>
    let r := splitOnChar sep rest
    if c = sep then [] :: r
    else
      match r with
      | [] => [[c]]
      | l :: ls => (c :: l) :: ls

/-- Python `'\n'.join` inverse: split on newlines. -/
def splitNl (s : List Char) : List (List Char) := splitOnChar '\n' s

/-- Python `'\n'.join(lines)`. -/
def joinNl : List (List Char) → List Char
  | [] => []
  | [l] => l
  | l :: rest => l ++ '\n' :: joinNl rest

/-- Does `p` occur as a leading segment of `s`?  (Python `str.startswith`.) -/
def beginsWith : List Char → List Char → Bool
  | [], _ => true
  | _ :: _, [] => false
  | p :: ps, c :: cs => p = c && beginsWith ps cs

/-- Python `str.endswith`. -/
def endsWith (p s : List Char) : Bool := beginsWith p.reverse s.reverse

/-- Python `pat in s` substring containment. -/
def containsSub (pat : List Char) : List Char → Bool
  | [] => beginsWith pat []
  | c :: rest => beginsWith pat (c :: rest) || containsSub pat rest

/-- Decimal digit character. -/
def digitChar (n : Nat) : Char := Char.ofNat (48 + n)

/-- Decimal digits of a natural number, fuel-indexed for structural recursion. -/
def natToCharsAux : Nat → Nat → List Char
  | 0, _ => []
  | fuel + 1, n => if n < 10 then [digitChar n] else natToCharsAux fuel (n / 10) ++ [digitChar (n % 10)]

/-- Decimal representation of a natural number (Python f-string of an int). -/
def natToChars (n : Nat) : List Char := natToCharsAux (n + 1) n

/-! ### `convert_reference_docs.sanitize_for_mdx`: first-heading suppression pass

`re.match(r"^#\s+.+", ln)` succeeds exactly when the line starts with `'#'`,
followed by at least one whitespace character, followed by at least one
further character (lines contain no newline). -/

/-- Does `re.match(r"^#\s+.+", ln)` succeed on newline-free `ln`? -/
def matchesH1Skip : List Char → Bool
  | '#' :: c :: _ :: _ => pyWs c
  | _ => false

/-- The first-heading-suppression loop of `sanitize_for_mdx`: while the skip
flag is armed, a line matching a first-level heading is dropped and the flag
disarmed; the flag is left untouched on non-matching lines. -/
def skipFirstHeadingGo : Bool → List (List Char) → List (List Char)
  | _, [] => []
  | skip, ln :: rest =>
    if skip && matchesH1Skip ln then skipFirstHeadingGo false rest
    else ln :: skipFirstHeadingGo skip rest

/-- First-heading-suppression pass: the flag is armed at document start. -/
def skipFirstHeadingPass (lines : List (List Char)) : List (List Char) :=
  skipFirstHeadingGo true lines

/-- The pass as the specification words it: the flag is disarmed after
processing a line whether or not the line matched. -/
def skipFirstHeadingSpecGo : Bool → List (List Char) → List (List Char)
  | _, [] => []
  | skip, ln :: rest =>
    if skip && matchesH1Skip ln then skipFirstHeadingSpecGo false rest
    else ln :: skipFirstHeadingSpecGo false rest

/-- Spec-worded variant of the first-heading-suppression pass. -/
def skipFirstHeadingSpecPass (lines : List (List Char)) : List (List Char) :=
  skipFirstHeadingSpecGo true lines

/-! ### `convert_reference_docs.sanitize_for_mdx`: heading-id deduplication pass

The pass matches `re.match(r'^(#+)\s*(.*)\s*\{#([A-Za-z0-9_-]+)\}', ln)`.
Because `(.*)` is greedy, the brace group captured is the last one on the
line that is followed by a valid id and closing brace, `text` extends up to
that position, and the intermediate `\s*` matches the empty string. -/

/-- Is `c` in the character class `[A-Za-z0-9_-]`? -/
def isIdChar (c : Char) : Bool := c.isAlpha || c.isDigit || c = '_' || c = '-'

/-- If the given suffix begins with a valid heading-anchor group `{#id}`
(for nonempty `id` over `[A-Za-z0-9_-]`), return `id`. -/
def braceIdAt : List Char → Option (List Char)
  | c1 :: c2 :: rest =>
    if c1 = lbrace && c2 = '#' then
      let idp := rest.takeWhile isIdChar
      match rest.dropWhile isIdChar with
      | c3 :: _ => if decide (idp ≠ []) && c3 = rbrace then some idp else none
      | [] => none
    else none
  | _ => none

/-- Scan for the last position carrying a valid `{#id}` group; return the
text before that position (greedy `(.*)` capture) and the id. -/
def findLastBraceIdGo : List Char → List Char → Option (List Char × List Char) →
    Option (List Char × List Char)
  | [], _, acc => acc
  | c :: rest, seen, acc =>
    let acc' :=
      match braceIdAt (c :: rest) with
      | some i => some (seen.reverse, i)
      | none => acc
    findLastBraceIdGo rest (c :: seen) acc'

/-- Last valid `{#id}` group in a string, with the preceding text. -/
def findLastBraceId (r : List Char) : Option (List Char × List Char) :=
  findLastBraceIdGo r [] none

/-- `re.match(r'^(#+)\s*(.*)\s*\{#([A-Za-z0-9_-]+)\}', ln)`: on success,
return the `(hashes, text, id)` capture groups. -/
def parseHeadingId (ln : List Char) : Option (List Char × List Char × List Char) :=
  let hashes := ln.takeWhile (· = '#')
  if hashes = [] then none
  else
    let r := (ln.dropWhile (· = '#')).dropWhile pyWs
    match findLastBraceId r with
    | some (text, hid) => some (hashes, text, hid)
    | none => none

/-- Registry lookup: `seen_ids.get(hid, 0)`. -/
def seenCount : List (List Char × Nat) → List Char → Nat
  | [], _ => 0
  | (k, v) :: rest, hid => if k = hid then v else seenCount rest hid

/-- Registry update: `seen_ids[hid] = v`. -/
def setSeenCount : List (List Char × Nat) → List Char → Nat → List (List Char × Nat)
  | [], hid, v => [(hid, v)]
  | (k, w) :: rest, hid, v =>
    if k = hid then (hid, v) :: rest else (k, w) :: setSeenCount rest hid v

/-- One line of the heading-id deduplication pass of `sanitize_for_mdx`. -/
def dedupHeadingLine (st : List (List Char × Nat)) (ln : List Char) :
    List Char × List (List Char × Nat) :=
  match parseHeadingId ln with
  | none => (ln, st)
  | some (hashes, text, hid) =>
    let cnt := seenCount st hid
    let ln' :=
      if cnt > 0 then
        hashes ++ [' '] ++ text ++ [' ', lbrace, '#'] ++ hid ++ ['-'] ++
          natToChars (cnt + 1) ++ [rbrace]
      else ln
    (ln', setSeenCount st hid (cnt + 1))

/-- The heading-id deduplication pass threaded over a document. -/
def dedupHeadingIdsGo (st : List (List Char × Nat)) : List (List Char) → List (List Char)
  | [] => []
  | ln :: rest =>
    let p := dedupHeadingLine st ln
    p.1 :: dedupHeadingIdsGo p.2 rest

/-- Heading-id deduplication over a document, registry empty at start. -/
def dedupHeadingIds (lines : List (List Char)) : List (List Char) :=
  dedupHeadingIdsGo [] lines

/-! ### `devsite_to_hugo_converter._convert_internal_links`

The link pattern `\[([^\]]+)\]\(([^)]+)\)` is matched left to right; since
the bracketed classes exclude their closing delimiter no backtracking can
rescue a failed attempt, so matching at a position is deterministic. -/

/-- `re.sub(r'\s+', '', url)`: delete all whitespace characters. -/
def removeWsChars (s : List Char) : List Char := s.filter (fun c => !pyWs c)

/-- Python `url.replace('.md', '')`: remove every (left-to-right,
non-overlapping) occurrence of the substring `.md`. -/
def replaceAllMd : List Char → List Char
  | '.' :: 'm' :: 'd' :: t => replaceAllMd t
  | c :: rest => c :: replaceAllMd rest
  | [] => []

/-- The external schemes skipped by the link rewriter. -/
def externalSchemes : List (List Char) :=
  ["http://".data, "https://".data, "mailto:".data, "tel:".data, "ftp://".data]

/-- Strip a leading `./` if present. -/
def stripLeadDotSlash (s : List Char) : List Char :=
  if beginsWith "./".data s then s.drop 2 else s

/-- Strip a leading `/` if present. -/
def stripLeadSlash (s : List Char) : List Char :=
  if beginsWith "/".data s then s.drop 1 else s

/-- Python `url.rstrip('/')`. -/
def rstripSlash (s : List Char) : List Char :=
  (s.reverse.dropWhile (· = '/')).reverse

/-- Python `url.split('/')[-1]`. -/
def lastSlashSegment (u : List Char) : List Char :=
  (splitOnChar '/' u).getLastD []

/-- The `replace_link` callback of `_convert_internal_links`, applied to the
two capture groups of one matched link. -/
def replaceLink (text url : List Char) : List Char :=
  let original := '[' :: text ++ ']' :: '(' :: url ++ [')']
  let u := removeWsChars url
  if externalSchemes.any (fun p => beginsWith p u) then original
  else if beginsWith "#".data u then original
  else if endsWith ".md".data u then
    let n := stripLeadSlash (stripLeadDotSlash (replaceAllMd u))
    '[' :: text ++ "](/".data ++ n ++ "/)".data
  else if u.any (· = '/') && !((lastSlashSegment u).any (· = '.')) then
    let n := stripLeadSlash (stripLeadDotSlash (rstripSlash u))
    '[' :: text ++ "](/".data ++ n ++ "/)".data
  else original

/-- Try to match `\[([^\]]+)\]\(([^)]+)\)` at the head of `s`; on success
return the two capture groups and the remainder after the match. -/
def matchLinkAt : List Char → Option (List Char × List Char × List Char)
  | '[' :: rest =>
    let text := rest.takeWhile (· ≠ ']')
    match rest.dropWhile (· ≠ ']') with
    | ']' :: '(' :: rest2 =>
      if text = [] then none
      else
        let url := rest2.takeWhile (· ≠ ')')
        match rest2.dropWhile (· ≠ ')') with
        | ')' :: rest3 => if url = [] then none else some (text, url, rest3)
        | _ => none
    | _ => none
  | _ => none

/-- The `re.sub` scan of `_convert_internal_links`, fuel-indexed (the fuel
only bounds the recursion; every step strictly shortens the text, and the
entry point supplies enough fuel for the whole scan). -/
def convertInternalLinksGo : Nat → List Char → List Char
  | 0, s => s
  | fuel + 1, s =>
    match matchLinkAt s with
    | some (t, u, r) => replaceLink t u ++ convertInternalLinksGo fuel r
    | none =>
      match s with
      | [] => []
      | c :: rest => c :: convertInternalLinksGo fuel rest

/-- `_convert_internal_links`: rewrite every link match in the body via
`replaceLink`, scanning left to right as `re.sub` does. -/
def convertInternalLinks (s : List Char) : List Char :=
  convertInternalLinksGo (s.length + 1) s

/-! ### `devsite_to_hugo_converter._parse_markdown_file`

The frontmatter pattern is `re.match(r'^---\n(.*?)\n---\n(.*)', content,
re.DOTALL)`: the text must begin with `---\n`, the lazy group runs up to the
earliest following `\n---\n`, and the body is everything after it. -/

/-- A YAML value (the fragment of YAML scalars the frontmatter uses). -/
inductive YamlVal where
  | str : List Char → YamlVal
  | int : Int → YamlVal
  | bool : Bool → YamlVal
deriving DecidableEq, Repr

/-- A parsed YAML mapping, as an ordered association list. -/
abbrev YamlMap := List (List Char × YamlVal)

/-- Outcome of `yaml.safe_load` on a frontmatter block: a parse error, a
null document, or a mapping. -/
inductive YamlOut where
  | err : YamlOut
  | nullv : YamlOut
  | ok : YamlMap → YamlOut

/-- Find the earliest split of `s` as `fm ++ "\n---\n" ++ body` (the lazy
`(.*?)\n---\n` of the frontmatter pattern). -/
def findFmClose : List Char → Option (List Char × List Char)
  | [] => none
  | c :: rest =>
    if beginsWith "\n---\n".data (c :: rest) then some ([], (c :: rest).drop 5)
    else
      match findFmClose rest with
      | some (fm, body) => some (c :: fm, body)
      | none => none

/-- Structural frontmatter split: `some (fm, body)` iff the pattern
`^---\n(.*?)\n---\n(.*)` matches, with its two capture groups. -/
def fmSplit (content : List Char) : Option (List Char × List Char) :=
  if beginsWith "---\n".data content then findFmClose (content.drop 4)
  else none

/-- `_parse_markdown_file`, parameterised by the YAML parser: returns the
frontmatter mapping and the body, never raising. -/
def parseMarkdownFile (yamlLoad : List Char → YamlOut) (content : List Char) :
    YamlMap × List Char :=
  match fmSplit content with
  | none => ([], content)
  | some (fm, body) =>
    match yamlLoad fm with
    | .err => ([], content)
    | .nullv => ([], body)
    | .ok m => (m, body)

/-! ### `devsite_to_hugo_converter._remove_duplicate_h1_title` -/

/-- Does a stripped line start with `# ` (a first-level heading)? -/
def isH1Line (l : List Char) : Bool := beginsWith "# ".data (stripWs l)

/-- The heading text of an H1 line: `stripped_line[2:].strip()`. -/
def h1TextOf (l : List Char) : List Char := stripWs ((stripWs l).drop 2)

/-- Case-insensitive equality, Python `a.lower() == b.lower()`. -/
def lowerEq (a b : List Char) : Bool :=
  decide (a.map Char.toLower = b.map Char.toLower)

/-- Is a line blank after stripping? -/
def isBlankLine (l : List Char) : Bool := decide (stripWs l = [])

/-- The scan loop of `_remove_duplicate_h1_title` over the lines: stop at the
first H1; if its text matches the title case-insensitively, remove it along
with the blank lines immediately following it, else leave the document
alone (`none`). -/
def removeDupH1Aux (title : List Char) : List (List Char) → Option (List (List Char))
  | [] => none
  | l :: rest =>
    if isH1Line l then
      if lowerEq (h1TextOf l) title then some (rest.dropWhile isBlankLine)
      else none
    else
      match removeDupH1Aux title rest with
      | some out => some (l :: out)
      | none => none

/-- `_remove_duplicate_h1_title(body, frontmatter_title)`. -/
def removeDuplicateH1Title (body title : List Char) : List Char :=
  if title = [] then body
  else
    match removeDupH1Aux title (splitNl (stripWs body)) with
    | some out => joinNl out
    | none => body

/-- Number of first-level-heading lines of `s` carrying exactly the text `t`. -/
def countH1Text (s t : List Char) : Nat :=
  ((splitNl s).filter (fun l => isH1Line l && decide (h1TextOf l = t))).length

/-! ### `devsite_to_hugo_converter._convert_frontmatter` -/

/-- First-match association-list lookup (Python dict access). -/
def fmLookup : YamlMap → List Char → Option YamlVal
  | [], _ => none
  | (k, v) :: rest, key => if k = key then some v else fmLookup rest key

/-- The configured `field_mapping` table of `_convert_frontmatter`. -/
def fieldMapping : List (List Char × List Char) :=
  [("title".data, "title".data), ("description".data, "description".data),
   ("project_path".data, "project_path".data), ("book_path".data, "book_path".data),
   ("toc".data, "toc".data)]

/-- One step of the field-copy loop. -/
def copyFieldStep (fm : YamlMap) (acc : YamlMap) (p : List Char × List Char) : YamlMap :=
  match fmLookup fm p.1 with
  | some v => acc ++ [(p.2, v)]
  | none => acc

/-- `_convert_frontmatter`: copy mapped fields, set `weight` (input value or
default 1), then set `linkTitle` from `title` when `title` is present and
`linkTitle` absent in the mapping built so far. -/
def convertFrontmatter (fm : YamlMap) : YamlMap :=
  let mapped := fieldMapping.foldl (copyFieldStep fm) []
  let withWeight := mapped ++ [("weight".data, (fmLookup fm "weight".data).getD (YamlVal.int 1))]
  match fmLookup withWeight "title".data with
  | some v =>
    if (fmLookup withWeight "linkTitle".data).isNone then
      withWeight ++ [("linkTitle".data, v)]
    else withWeight
  | none => withWeight

/-! ### `devsite_to_hugo_converter._convert_content_files` / `_get_category_path`

Files are modelled by their source-relative paths, a path by its list of
parts; the per-file conversion outcome (`_convert_single_file`) is an
abstract boolean parameter.  The run is modelled with `incremental=False`
(no file is skipped). -/

/-- Aggregate statistics of `_convert_content_files`. -/
structure ConversionStats where
  total : Nat
  converted : Nat
  skipped : Nat
  errors : Nat
deriving DecidableEq, Repr

/-- Lookup in the `content_mapping` section table (`section → type`). -/
def sectionLookup : List (String × String) → String → Option String
  | [], _ => none
  | (k, v) :: rest, key => if k = key then some v else sectionLookup rest key

/-- `_get_category_path`: map a relative path to its category path, raising
(modelled by `Except.error`) when the top-level section has no mapping. -/
def getCategoryPath (mapping : List (String × String)) (parts : List String) :
    Except String (List String) :=
  match parts with
  | [] => .ok []
  | sec :: rest =>
    if rest = [] && sec = "help.md" then .ok ["docs", "reference", "help.md"]
    else
      match sectionLookup mapping sec with
      | some ty => .ok (ty :: sec :: rest)
      | none => .error ("No category mapping found for section " ++ sec)

/-- Per-file step of the `_convert_content_files` loop: the surrounding
`try`/`except` turns the unmapped-section and disallowed-category raises
into a per-file error count, and the loop continues. -/
def convertFileStep (mapping : List (String × String)) (convertOk : List String → Bool)
    (st : ConversionStats) (f : List String) : ConversionStats :=
  let st := { st with total := st.total + 1 }
  match getCategoryPath mapping f with
  | .error _ => { st with errors := st.errors + 1 }
  | .ok cat =>
    if cat = ["how-to-guides"] then { st with errors := st.errors + 1 }
    else if convertOk f then { st with converted := st.converted + 1 }
    else { st with errors := st.errors + 1 }

/-- `_convert_content_files` over a tree of markdown files (given by their
relative paths), with `incremental=False`. -/
def convertContentFiles (mapping : List (String × String)) (convertOk : List String → Bool)
    (files : List (List String)) : ConversionStats :=
  files.foldl (convertFileStep mapping convertOk) ⟨0, 0, 0, 0⟩

/-! ### `devsite_to_hugo_converter._add_language_identifiers_to_code_blocks`

`content.splitlines(keepends=True)` is modelled for newline-terminated
lines; each produced line retains its trailing `'\n'` except possibly the
last. -/

/-- `str.splitlines(keepends=True)` restricted to `'\n'` terminators. -/
def splitKeepNlGo : List Char → List Char → List (List Char)
  | acc, [] => if acc = [] then [] else [acc.reverse]
  | acc, c :: rest =>
    if c = '\n' then (acc.reverse ++ ['\n']) :: splitKeepNlGo [] rest
    else splitKeepNlGo (c :: acc) rest

/-- Split into lines keeping the newline terminators. -/
def splitKeepNl (s : List Char) : List (List Char) := splitKeepNlGo [] s

/-- Is this line a code fence (its stripped form starts with three
backticks)? -/
def isFenceLine (l : List Char) : Bool := beginsWith "```".data (stripWs l)

/-- The fence tag: `stripped[3:].strip()`. -/
def fenceAfter (l : List Char) : List Char := stripWs ((stripWs l).drop 3)

/-- The fence indent: `line[:len(line) - len(line.lstrip())]`. -/
def fenceIndentOf (l : List Char) : List Char := l.takeWhile pyWs

/-- Python `''.join(code_lines).rstrip('\n\r')`. -/
def rstripNlCr (s : List Char) : List Char :=
  (s.reverse.dropWhile (fun c => c = '\n' || c = '\r')).reverse

/-- Is `c` one of the tree-drawing characters `('└', '├', '│')` the
annotator treats as directory-structure markers? -/
def isTreeChar (c : Char) : Bool := c = '└' || c = '├' || c = '│'

/-- First configured language one of whose substrings occurs in the code
content (the pattern-table loop of `determine_language`). -/
def firstLangMatch : List (List Char × List (List Char)) → List Char → Option (List Char)
  | [], _ => none
  | (lang, ps) :: rest, cc =>
    if ps.any (fun p => containsSub p cc) then some lang else firstLangMatch rest cc

/-- `determine_language(code_content)` with the configured pattern table. -/
def determineLanguage (pats : List (List Char × List (List Char))) (cc : List Char) :
    List Char :=
  if stripWs cc = [] then "text".data
  else if beginsWith "/".data (stripWs cc) || cc.any isTreeChar then "text".data
  else
    match firstLangMatch pats cc with
    | some lang => lang
    | none => "text".data

/-- Emission of an annotated unlabeled block: annotated opening fence, the
buffered content (joined, trailing newlines stripped, re-terminated) when
nonempty, and a closing fence, all with the opening fence's indent. -/
def emitAnnotated (pats : List (List Char × List (List Char))) (indent : List Char)
    (codeLines : List (List Char)) : List (List Char) :=
  let cc := rstripNlCr codeLines.flatten
  let lang := determineLanguage pats cc
  [indent ++ "```".data ++ lang ++ ['\n']] ++
    (if cc = [] then [] else [cc ++ ['\n']]) ++
    [indent ++ "```".data ++ ['\n']]

/-- The line loop of `_add_language_identifiers_to_code_blocks`, with state
`(in_code_block, in_unlabeled_block, code_lines, fence_indent)`. -/
def annotateGo (pats : List (List Char × List (List Char))) :
    List (List Char) → Bool → Bool → List (List Char) → List Char → List (List Char)
  | [], inCode, inUnl, codeLines, indent =>
    if inCode && inUnl then emitAnnotated pats indent codeLines else []
  | l :: rest, inCode, inUnl, codeLines, indent =>
    if inCode = false then
      if isFenceLine l then
        let ind := fenceIndentOf l
        if fenceAfter l = [] then annotateGo pats rest true true [] ind
        else l :: annotateGo pats rest true false codeLines ind
      else l :: annotateGo pats rest false inUnl codeLines indent
    else
      if isFenceLine l then
        if inUnl then emitAnnotated pats indent codeLines ++ annotateGo pats rest false false [] indent
        else l :: annotateGo pats rest false inUnl codeLines indent
      else
        if inUnl then annotateGo pats rest true true (codeLines ++ [l]) indent
        else l :: annotateGo pats rest true inUnl codeLines indent

/-- The annotator on a list of keepends lines, initial state. -/
def annotateLines (pats : List (List Char × List (List Char))) (lines : List (List Char)) :
    List (List Char) :=
  annotateGo pats lines false false [] []

/-- `_add_language_identifiers_to_code_blocks` on the whole body. -/
def addLanguageIdentifiersToCodeBlocks (pats : List (List Char × List (List Char)))
    (content : List Char) : List Char :=
  (annotateLines pats (splitKeepNl content)).flatten

/-! ### `devsite_to_hugo_converter._fix_directory_structures`

The two substitutions are driven by the regexes

  `(following directory structure:?\s*(?:\n|```?)?\s*)(└.*?(?:\n.*?[├└│].*?)*)`
  `(```\s*)(└.*?(?:\n.*?[├└│].*?)*)(```)`

with `re.DOTALL` (and `re.MULTILINE`, which is irrelevant: no `^`/`$`).
They are embedded through a small backtracking regex engine with Python's
ordered-alternative semantics: greedy `*`/`?` try the longer alternative
first, lazy `*?` the shorter, and failure backtracks through the
continuation.  The fuel argument only bounds star unfolding; each star
iteration of these patterns consumes at least one character, so the
supplied fuel (text length + 1) never runs out on them. -/

/-- Regular-expression syntax used by the directory-tree fixer. -/
inductive RegEx where
  | eps : RegEx
  | lit : Char → RegEx
  | cls : (Char → Bool) → RegEx
  | seq : RegEx → RegEx → RegEx
  | alt : RegEx → RegEx → RegEx
  | opt : RegEx → RegEx
  | starG : RegEx → RegEx
  | starL : RegEx → RegEx
  | grp : Nat → RegEx → RegEx

/-- Captured group spans: `(group index, start, end)`. -/
abbrev RegCaps := List (Nat × Nat × Nat)

/-- Backtracking matcher in continuation-passing style.  `s` is the subject,
`i` the current position, `caps` the captures so far; the continuation
receives the position and captures after this fragment.  The fuel is
decremented at every recursive step (structural recursion, so the kernel
can evaluate the matcher); the entry point supplies far more fuel than the
patterns of `_fix_directory_structures` can consume on a given subject. -/
def regexRun (s : List Char) :
    Nat → RegEx → Nat → RegCaps → (Nat → RegCaps → Option (Nat × RegCaps)) →
    Option (Nat × RegCaps)
  | 0, _, _, _, _ => none
  | fuel + 1, re, i, caps, k =>
    match re with
    | .eps => k i caps
    | .lit c =>
      match s.get? i with
      | some c' => if c' = c then k (i + 1) caps else none
      | none => none
    | .cls f =>
      match s.get? i with
      | some c' => if f c' then k (i + 1) caps else none
      | none => none
    | .seq a b => regexRun s fuel a i caps (fun j cp => regexRun s fuel b j cp k)
    | .alt a b => (regexRun s fuel a i caps k).orElse (fun _ => regexRun s fuel b i caps k)
    | .opt r => (regexRun s fuel r i caps k).orElse (fun _ => k i caps)
    | .starG r =>
      (regexRun s fuel r i caps (fun j cp =>
        if j = i then none else regexRun s fuel (.starG r) j cp k)).orElse
        (fun _ => k i caps)
    | .starL r =>
      (k i caps).orElse (fun _ =>
        regexRun s fuel r i caps (fun j cp =>
          if j = i then none else regexRun s fuel (.starL r) j cp k))
    | .grp n r => regexRun s fuel r i caps (fun j cp => k j ((n, i, j) :: cp))

/-- Try a match of `re` anchored at position `i`; return the end position
and the captures. -/
def regexMatchAt (s : List Char) (re : RegEx) (i : Nat) : Option (Nat × RegCaps) :=
  regexRun s (1000 * (s.length + 1)) re i [] (fun j cp => some (j, cp))

/-- The text of capture group `n`. -/
def capText (s : List Char) (caps : RegCaps) (n : Nat) : List Char :=
  match caps.find? (fun t => t.1 = n) with
  | some t => (s.drop t.2.1).take (t.2.2 - t.2.1)
  | none => []

/-- The scan loop of `re.sub`: try a match at each position left to right;
on a match emit the replacement and continue after it. -/
def regexSubGo (re : RegEx) (repl : List Char → RegCaps → List Char) (s : List Char) :
    Nat → Nat → List Char
  | 0, i => s.drop i
  | fuel + 1, i =>
    match s.drop i with
    | [] => []
    | c :: _ =>
      match regexMatchAt s re i with
      | some (j, caps) =>
        if i < j then repl s caps ++ regexSubGo re repl s fuel j
        else c :: regexSubGo re repl s fuel (i + 1)
      | none => c :: regexSubGo re repl s fuel (i + 1)

/-- `re.sub(re, repl, s)` for patterns that cannot match the empty string. -/
def regexSub (re : RegEx) (repl : List Char → RegCaps → List Char) (s : List Char) :
    List Char :=
  regexSubGo re repl s (s.length + 1) 0

/-- Literal string as a regex. -/
def regexLit : List Char → RegEx
  | [] => .eps
  | c :: rest => .seq (.lit c) (regexLit rest)

/-- `\s*` (greedy). -/
def regexWsStar : RegEx := .starG (.cls pyWs)

/-- `.` under `re.DOTALL`. -/
def regexAnyDot : RegEx := .cls (fun _ => true)

/-- The tree body `└.*?(?:\n.*?[├└│].*?)*` shared by both patterns. -/
def treeBodyRe : RegEx :=
  .seq (.lit '└') (.seq (.starL regexAnyDot)
    (.starG (.seq (.lit '\n') (.seq (.starL regexAnyDot)
      (.seq (.cls isTreeChar) (.starL regexAnyDot))))))

/-- The `tree_pattern` regex of `_fix_directory_structures`. -/
def treePatternRe : RegEx :=
  .seq
    (.grp 1 (.seq (regexLit "following directory structure".data)
      (.seq (.opt (.lit ':'))
        (.seq regexWsStar
          (.seq (.opt (.alt (.lit '\n')
            (.seq (.lit '`') (.seq (.lit '`') (.opt (.lit '`'))))))
            regexWsStar)))))
    (.grp 2 treeBodyRe)

/-- The `inline_tree_pattern` regex of `_fix_directory_structures`. -/
def inlineTreePatternRe : RegEx :=
  .seq (.grp 1 (.seq (regexLit "```".data) regexWsStar))
    (.seq (.grp 2 treeBodyRe) (.grp 3 (regexLit "```".data)))

/-- The `replace_tree` replacement callback. -/
def replaceTreeRepl (s : List Char) (caps : RegCaps) : List Char :=
  stripWs (capText s caps 1) ++ "\n\n```text\n".data ++
    stripWs (capText s caps 2) ++ "\n```".data

/-- The `fix_inline_tree` replacement callback. -/
def fixInlineTreeRepl (s : List Char) (caps : RegCaps) : List Char :=
  "```text\n".data ++ stripWs (capText s caps 2) ++ "\n```".data

/-- `_fix_directory_structures`: the two substitutions in sequence. -/
def fixDirectoryStructures (content : List Char) : List Char :=
  regexSub inlineTreePatternRe fixInlineTreeRepl
    (regexSub treePatternRe replaceTreeRepl content)

/-- The shape of the fixer's output for a single fenced tree block: a
`text`-tagged fence around a corner-led tree body.  Used to state the
amended idempotence claim. -/
def fixedTreeBlock (w : List Char) : List Char :=
  "```text\n└".data ++ (w ++ "\n```".data)

/-! ## Theorems -/

theorem skipFirstHeadingGo_false (lines : List (List Char)) :
    skipFirstHeadingGo false lines = lines := by
  induction lines with
  | nil => rfl
  | cons l rest ih => simp [skipFirstHeadingGo, ih]

theorem skipFirstHeadingGo_true_of_noMatch (lines : List (List Char))
    (h : ∀ m ∈ lines, matchesH1Skip m = false) :
    skipFirstHeadingGo true lines = lines := by
  induction lines with
  | nil => rfl
  | cons l rest ih =>
    have hl : matchesH1Skip l = false := h l (by simp)
    have ih' := ih (fun m hm => h m (by simp [hm]))
    simp [skipFirstHeadingGo, hl, ih']

/-- C1 (amended): in the first-heading-suppression pass the skip flag is
armed at document start, a line matching a first-level heading while the
flag is armed is dropped and the flag disarmed, and the flag is left armed
when a line does not match; hence the first matching heading anywhere in the
document is dropped, every other line passes through this pass unchanged,
and a document with no matching heading passes through whole. -/
theorem claim_C1_amended :
    (∀ pre l post, (∀ m ∈ pre, matchesH1Skip m = false) → matchesH1Skip l = true →
      skipFirstHeadingPass (pre ++ l :: post) = pre ++ post)
    ∧ (∀ lines, (∀ m ∈ lines, matchesH1Skip m = false) →
        skipFirstHeadingPass lines = lines) := by
  constructor
  · intro pre l post hpre hl
    unfold skipFirstHeadingPass
    induction pre with
    | nil =>
      simp only [List.nil_append, skipFirstHeadingGo, hl, Bool.and_true, if_pos rfl]
      exact skipFirstHeadingGo_false post
    | cons p ps ih =>
      have hp : matchesH1Skip p = false := hpre p (by simp)
      have ih' := ih (fun m hm => hpre m (by simp [hm]))
      simp [skipFirstHeadingGo, hp, ih']
  · intro lines h
    exact skipFirstHeadingGo_true_of_noMatch lines h

/-- C1 counterexample: on the document `["intro", "# Title"]` the pass as
implemented drops the heading on the second line (the flag is still armed
there), while the pass as the claim words it (flag disarmed after every
line) would keep the document unchanged. -/
theorem claim_C1_counterexample :
    skipFirstHeadingPass ["intro".data, "# Title".data] = ["intro".data]
    ∧ skipFirstHeadingSpecPass ["intro".data, "# Title".data]
        = ["intro".data, "# Title".data]
    ∧ (["intro".data] : List (List Char)) ≠ ["intro".data, "# Title".data] := by
  refine ⟨by decide, by decide, by decide⟩

/-- C1 witness: the amended theorem applied to a concrete document. -/
theorem claim_C1_witness :
    skipFirstHeadingPass (["intro".data] ++ "# T".data :: ["# U".data])
      = ["intro".data] ++ ["# U".data] :=
  claim_C1_amended.1 ["intro".data] "# T".data ["# U".data] (by decide) (by decide)

/-- C3: heading-id deduplication.  A document with two headings tagged
`{#setup}` keeps the first occurrence unchanged and renames the second to
`{#setup-2}`; for every line matching the heading-anchor pattern the
registry counter for the id is set to its previous value plus one (first
occurrence included), the line is left unchanged exactly when the previous
count was zero, and is rewritten with the suffix `-(count+1)` exactly when
the previous count was positive; non-matching lines leave line and registry
untouched. -/
theorem claim_C3 :
    (dedupHeadingIds ["## A \x7b#setup\x7d".data, "## B \x7b#setup\x7d".data]
      = ["## A \x7b#setup\x7d".data, "## B  \x7b#setup-2\x7d".data])
    ∧ (∀ st ln hashes text hid, parseHeadingId ln = some (hashes, text, hid) →
        (dedupHeadingLine st ln).2 = setSeenCount st hid (seenCount st hid + 1)
        ∧ (seenCount st hid = 0 → (dedupHeadingLine st ln).1 = ln)
        ∧ (0 < seenCount st hid → (dedupHeadingLine st ln).1 =
            hashes ++ [' '] ++ text ++ [' ', lbrace, '#'] ++ hid ++ ['-'] ++
              natToChars (seenCount st hid + 1) ++ [rbrace]))
    ∧ (∀ st ln, parseHeadingId ln = none → dedupHeadingLine st ln = (ln, st)) := by
  refine ⟨by decide, ?_, ?_⟩
  · intro st ln hashes text hid h
    refine ⟨?_, ?_, ?_⟩
    · simp [dedupHeadingLine, h]
    · intro hz; simp [dedupHeadingLine, h, hz]
    · intro hz
      have : ¬ seenCount st hid = 0 := by omega
      simp [dedupHeadingLine, h, Nat.pos_iff_ne_zero.mpr this, hz]
  · intro st ln h
    simp [dedupHeadingLine, h]

/-- C3 witness: the per-line facts applied to a concrete registry and line
whose id has already been seen once. -/
theorem claim_C3_witness :
    (dedupHeadingLine [("setup".data, 1)] "# A \x7b#setup\x7d".data).2
      = setSeenCount [("setup".data, 1)] "setup".data
          (seenCount [("setup".data, 1)] "setup".data + 1)
    ∧ (dedupHeadingLine [("setup".data, 1)] "# A \x7b#setup\x7d".data).1
      = "#".data ++ [' '] ++ "A ".data ++ [' ', lbrace, '#'] ++ "setup".data ++ ['-'] ++
          natToChars (seenCount [("setup".data, 1)] "setup".data + 1) ++ [rbrace] :=
  ⟨(claim_C3.2.1 [("setup".data, 1)] "# A \x7b#setup\x7d".data "#".data "A ".data
      "setup".data (by decide)).1,
   (claim_C3.2.1 [("setup".data, 1)] "# A \x7b#setup\x7d".data "#".data "A ".data
      "setup".data (by decide)).2.2 (by decide)⟩

/-- C4: the front-matter splitter is total (never raises) and: with no
structural frontmatter match it returns the empty mapping and the whole
text; with a match whose YAML fails to parse it returns the empty mapping
and the whole original text; with a match parsing to a null document it
returns the empty mapping and the remaining body; and with a match parsing
to a mapping it returns that mapping and the remaining body. -/
theorem claim_C4 :
    ∀ (yamlLoad : List Char → YamlOut) (content : List Char),
      (fmSplit content = none → parseMarkdownFile yamlLoad content = ([], content))
      ∧ (∀ fm body, fmSplit content = some (fm, body) →
          (yamlLoad fm = .err → parseMarkdownFile yamlLoad content = ([], content))
          ∧ (yamlLoad fm = .nullv → parseMarkdownFile yamlLoad content = ([], body))
          ∧ (∀ m, yamlLoad fm = .ok m → parseMarkdownFile yamlLoad content = (m, body))) := by
  intro yamlLoad content
  constructor
  · intro h; simp [parseMarkdownFile, h]
  · intro fm body h
    refine ⟨?_, ?_, ?_⟩
    · intro hy; simp [parseMarkdownFile, h, hy]
    · intro hy; simp [parseMarkdownFile, h, hy]
    · intro m hy; simp [parseMarkdownFile, h, hy]

/-- C4 witness: the splitter applied to a document with a well-formed
frontmatter block under a parser returning a mapping, and to one whose
block fails to parse. -/
theorem claim_C4_witness :
    parseMarkdownFile (fun _ => YamlOut.ok [("title".data, YamlVal.str "Setup".data)])
        "---\ntitle: Setup\n---\nbody".data
      = ([("title".data, YamlVal.str "Setup".data)], "body".data)
    ∧ parseMarkdownFile (fun _ => YamlOut.err) "---\n:bad\n---\nbody".data
      = ([], "---\n:bad\n---\nbody".data) :=
  ⟨(claim_C4 (fun _ => YamlOut.ok [("title".data, YamlVal.str "Setup".data)])
      "---\ntitle: Setup\n---\nbody".data).2 "title: Setup".data "body".data
      (by decide) |>.2.2 [("title".data, YamlVal.str "Setup".data)] rfl,
   (claim_C4 (fun _ => YamlOut.err) "---\n:bad\n---\nbody".data).2
      ":bad".data "body".data (by decide) |>.1 rfl⟩

theorem splitOnChar_ne_nil (sep : Char) (s : List Char) : splitOnChar sep s ≠ [] := by
  induction s with
  | nil => simp [splitOnChar]
  | cons c rest ih =>
    simp only [splitOnChar]
    split
    · simp
    · cases h : splitOnChar sep rest with
      | nil => simp
      | cons l ls => simp

theorem sep_not_mem_splitOnChar (sep : Char) (s : List Char) :
    ∀ l ∈ splitOnChar sep s, sep ∉ l := by
  induction s with
  | nil =>
    intro l hl
    simp only [splitOnChar, List.mem_singleton] at hl
    simp [hl]
  | cons c rest ih =>
    intro l hl
    simp only [splitOnChar] at hl
    by_cases hc : c = sep
    · rw [if_pos hc] at hl
      rcases List.mem_cons.mp hl with h | h
      · simp [h]
      · exact ih l h
    · rw [if_neg hc] at hl
      cases hsp : splitOnChar sep rest with
      | nil => exact absurd hsp (splitOnChar_ne_nil sep rest)
      | cons l0 ls =>
        rw [hsp] at hl
        rcases List.mem_cons.mp hl with h | h
        · subst h
          intro hmem
          rcases List.mem_cons.mp hmem with h' | h'
          · exact hc h'.symm
          · exact ih l0 (hsp ▸ List.mem_cons_self l0 ls) h'
        · exact ih l (hsp ▸ List.mem_cons_of_mem l0 h)

theorem splitOnChar_no_sep (sep : Char) (a : List Char) (ha : sep ∉ a) :
    splitOnChar sep a = [a] := by
  induction a with
  | nil => rfl
  | cons c a' ih =>
    have hc : ¬ c = sep := fun h => ha (by simp [h])
    have ha' : sep ∉ a' := fun h => ha (List.mem_cons_of_mem c h)
    simp only [splitOnChar, if_neg hc, ih ha']

theorem splitOnChar_append_sep (sep : Char) (a s : List Char) (ha : sep ∉ a) :
    splitOnChar sep (a ++ sep :: s) = a :: splitOnChar sep s := by
  induction a with
  | nil => simp [splitOnChar]
  | cons c a' ih =>
    have hc : ¬ c = sep := fun h => ha (by simp [h])
    have ha' : sep ∉ a' := fun h => ha (List.mem_cons_of_mem c h)
    simp only [List.cons_append, splitOnChar, List.append_eq, if_neg hc, ih ha']

theorem splitNl_joinNl (ls : List (List Char)) (h : ∀ l ∈ ls, '\n' ∉ l) :
    splitNl (joinNl ls) = if ls = [] then [[]] else ls := by
  induction ls with
  | nil => rfl
  | cons a ls' ih =>
    cases ls' with
    | nil =>
      have hj : joinNl [a] = a := rfl
      rw [hj, if_neg (by simp)]
      exact splitOnChar_no_sep '\n' a (h a (by simp))
    | cons b ls'' =>
      have ha : '\n' ∉ a := h a (by simp)
      have h' : ∀ l ∈ b :: ls'', '\n' ∉ l := fun l hl => h l (List.mem_cons_of_mem a hl)
      have ih' := ih h'
      rw [if_neg (by simp)] at ih'
      unfold splitNl at ih'
      show splitNl (a ++ '\n' :: joinNl (b :: ls'')) = a :: b :: ls''
      unfold splitNl
      rw [splitOnChar_append_sep '\n' a (joinNl (b :: ls'')) ha, ih']

theorem blank_not_h1 (m : List Char) (h : isBlankLine m = true) : isH1Line m = false := by
  simp only [isBlankLine, decide_eq_true_eq] at h
  simp only [isH1Line, h]
  decide

theorem filter_dropBlank_length (t : List Char) (post : List (List Char)) :
    (((post.dropWhile isBlankLine).filter
        (fun m => isH1Line m && decide (h1TextOf m = t))).length)
      = ((post.filter (fun m => isH1Line m && decide (h1TextOf m = t))).length) := by
  induction post with
  | nil => rfl
  | cons b bs ih =>
    by_cases hb : isBlankLine b = true
    · have hh : isH1Line b = false := blank_not_h1 b hb
      simp [List.dropWhile_cons, hb, hh, ih]
    · have hb' : isBlankLine b = false := by
        cases hx : isBlankLine b
        · rfl
        · exact absurd hx hb
      simp [List.dropWhile_cons, hb']

theorem filter_splitNl_joinNl (out : List (List Char)) (p : List Char → Bool)
    (hnl : ∀ m ∈ out, '\n' ∉ m) (hp : p [] = false) :
    ((splitNl (joinNl out)).filter p).length = (out.filter p).length := by
  rw [splitNl_joinNl out hnl]
  by_cases h : out = []
  · subst h; simp [hp]
  · rw [if_neg h]

theorem removeDupH1Aux_found (title l : List Char) (post : List (List Char)) :
    ∀ pre, (∀ m ∈ pre, isH1Line m = false) → isH1Line l = true →
      lowerEq (h1TextOf l) title = true →
      removeDupH1Aux title (pre ++ l :: post) = some (pre ++ post.dropWhile isBlankLine) := by
  intro pre
  induction pre with
  | nil => intro _ hl hm; simp [removeDupH1Aux, hl, hm]
  | cons q qs ih =>
    intro hpre hl hm
    have hq : isH1Line q = false := hpre q (by simp)
    have ih' := ih (fun m hm' => hpre m (by simp [hm'])) hl hm
    simp [removeDupH1Aux, hq, ih']

theorem removeDupH1Aux_mismatch (title l : List Char) (post : List (List Char)) :
    ∀ pre, (∀ m ∈ pre, isH1Line m = false) → isH1Line l = true →
      lowerEq (h1TextOf l) title = false →
      removeDupH1Aux title (pre ++ l :: post) = none := by
  intro pre
  induction pre with
  | nil => intro _ hl hm; simp [removeDupH1Aux, hl, hm]
  | cons q qs ih =>
    intro hpre hl hm
    have hq : isH1Line q = false := hpre q (by simp)
    have ih' := ih (fun m hm' => hpre m (by simp [hm'])) hl hm
    simp [removeDupH1Aux, hq, ih']

/-- C8 (amended): when the frontmatter title equals (case-insensitively) the
text of the first first-level heading among the lines of the stripped body,
the function removes exactly that heading line together with the blank lines
immediately following it — so the output contains exactly one fewer
first-level heading with that exact text than the input — and all other
content before and after the heading is preserved. -/
theorem claim_C8_amended :
    ∀ body title pre l post,
      stripWs body = body →
      splitNl body = pre ++ l :: post →
      (∀ m ∈ pre, isH1Line m = false) →
      isH1Line l = true →
      lowerEq (h1TextOf l) title = true →
      title ≠ [] →
      removeDuplicateH1Title body title = joinNl (pre ++ post.dropWhile isBlankLine)
      ∧ countH1Text (removeDuplicateH1Title body title) (h1TextOf l) + 1
          = countH1Text body (h1TextOf l) := by
  intro body title pre l post hstrip hsplit hpre hl hm ht
  have heq : removeDuplicateH1Title body title = joinNl (pre ++ post.dropWhile isBlankLine) := by
    unfold removeDuplicateH1Title
    rw [if_neg ht, hstrip, hsplit, removeDupH1Aux_found title l post pre hpre hl hm]
  refine ⟨heq, ?_⟩
  rw [heq]
  have hnl : ∀ m ∈ pre ++ post.dropWhile isBlankLine, '\n' ∉ m := by
    intro m hmem
    have hsub : ∀ m ∈ splitNl body, '\n' ∉ m := sep_not_mem_splitOnChar '\n' body
    rcases List.mem_append.mp hmem with hmm | hmm
    · exact hsub m (hsplit ▸ List.mem_append.mpr (Or.inl hmm))
    · have hpost : m ∈ post := (List.dropWhile_suffix isBlankLine).subset hmm
      exact hsub m (hsplit ▸ List.mem_append.mpr (Or.inr (List.mem_cons_of_mem l hpost)))
  have hpnil : (fun m => isH1Line m && decide (h1TextOf m = h1TextOf l)) [] = false := by
    have : isH1Line [] = false := by decide
    simp [this]
  unfold countH1Text
  rw [filter_splitNl_joinNl _ _ hnl hpnil, hsplit]
  have hdrop := filter_dropBlank_length (h1TextOf l) post
  simp only [List.filter_append, List.length_append, List.filter_cons, hl, decide_True,
    Bool.and_self, if_true, List.length_cons, hdrop]
  omega

/-- C8 counterexample: with body `"# T\n\nx"` and title `"T"` the heading is
removed but so is the blank line after it — the output is `"x"`, not the
claim-preserving `"\nx"`, so content after the heading is not fully
preserved. -/
theorem claim_C8_counterexample :
    removeDuplicateH1Title "# T\n\nx".data "T".data = "x".data
    ∧ "x".data ≠ "\nx".data := by
  refine ⟨by decide, by decide⟩

/-- C8 witness: the amended theorem applied to a concrete document. -/
theorem claim_C8_witness :
    removeDuplicateH1Title "# T\n\nx".data "T".data
        = joinNl ([] ++ ["".data, "x".data].dropWhile isBlankLine)
    ∧ countH1Text (removeDuplicateH1Title "# T\n\nx".data "T".data)
          (h1TextOf "# T".data) + 1
        = countH1Text "# T\n\nx".data (h1TextOf "# T".data) :=
  claim_C8_amended "# T\n\nx".data "T".data [] "# T".data ["".data, "x".data]
    (by decide) (by decide) (by decide) (by decide) (by decide) (by decide)

/-- C10: when the first first-level heading of the (stripped) body has text
differing case-insensitively from the (nonempty) frontmatter title, the body
is returned completely unchanged — scanning stops at that heading, so a
later first-level heading whose text does equal the title is never
removed. -/
theorem claim_C10 :
    ∀ body title pre l post,
      title ≠ [] →
      splitNl (stripWs body) = pre ++ l :: post →
      (∀ m ∈ pre, isH1Line m = false) →
      isH1Line l = true →
      lowerEq (h1TextOf l) title = false →
      removeDuplicateH1Title body title = body := by
  intro body title pre l post ht hsplit hpre hl hm
  unfold removeDuplicateH1Title
  rw [if_neg ht, hsplit, removeDupH1Aux_mismatch title l post pre hpre hl hm]

/-- C10 witness: a document whose first H1 text is not the title and whose
later H1 does match the title passes through unchanged. -/
theorem claim_C10_witness :
    removeDuplicateH1Title "a\n# Other\n# T\nx".data "T".data
      = "a\n# Other\n# T\nx".data :=
  claim_C10 "a\n# Other\n# T\nx".data "T".data ["a".data] "# Other".data
    ["# T".data, "x".data] (by decide) (by decide) (by decide) (by decide) (by decide)

/-- The singleton mapping copied for one configured key, when present. -/
def optPair (fm : YamlMap) (key : List Char) : YamlMap :=
  match fmLookup fm key with
  | some v => [(key, v)]
  | none => []

theorem fmLookup_append (a b : YamlMap) (k : List Char) :
    fmLookup (a ++ b) k =
      match fmLookup a k with
      | some v => some v
      | none => fmLookup b k := by
  induction a with
  | nil => rfl
  | cons p rest ih =>
    obtain ⟨k', v'⟩ := p
    by_cases h : k' = k
    · simp [fmLookup, h]
    · simp [fmLookup, h, ih]

theorem fmLookup_optPair_ne (fm : YamlMap) (key k : List Char) (h : ¬ key = k) :
    fmLookup (optPair fm key) k = none := by
  unfold optPair
  cases fmLookup fm key with
  | none => rfl
  | some v => simp [fmLookup, h]

theorem fmLookup_optPair_self (fm : YamlMap) (key : List Char) :
    fmLookup (optPair fm key) key = fmLookup fm key := by
  unfold optPair
  cases fmLookup fm key with
  | none => rfl
  | some v => simp [fmLookup]

theorem convertFrontmatter_eq (fm : YamlMap) :
    convertFrontmatter fm =
      optPair fm "title".data ++ (optPair fm "description".data ++
      (optPair fm "project_path".data ++ (optPair fm "book_path".data ++
      (optPair fm "toc".data ++
      ([("weight".data, (fmLookup fm "weight".data).getD (YamlVal.int 1))] ++
      (match fmLookup fm "title".data with
       | some v => [("linkTitle".data, v)]
       | none => [])))))) := by
  unfold convertFrontmatter
  simp only [fieldMapping, List.foldl_cons, List.foldl_nil, copyFieldStep]
  rcases h1 : fmLookup fm "title".data with _ | v1 <;>
    rcases h2 : fmLookup fm "description".data with _ | v2 <;>
    rcases h3 : fmLookup fm "project_path".data with _ | v3 <;>
    rcases h4 : fmLookup fm "book_path".data with _ | v4 <;>
    rcases h5 : fmLookup fm "toc".data with _ | v5 <;>
    simp +decide [h1, h2, h3, h4, h5, optPair, fmLookup, fmLookup_append]

/-- C9: the frontmatter field mapper outputs a mapping whose keys other than
the computed `weight` and `linkTitle` are exactly the configured source keys
present in the input (every unmapped key is dropped and every mapped key
keeps its input value); `weight` is always present, set to the input value
when present and to the numeric default 1 otherwise; and `linkTitle` is set
to the title value exactly when `title` is present. -/
theorem claim_C9 :
    ∀ fm : YamlMap,
      (∀ k, k ∉ fieldMapping.map Prod.snd → k ≠ "weight".data → k ≠ "linkTitle".data →
        fmLookup (convertFrontmatter fm) k = none)
      ∧ (∀ p ∈ fieldMapping, fmLookup (convertFrontmatter fm) p.2 = fmLookup fm p.1)
      ∧ fmLookup (convertFrontmatter fm) "weight".data
          = some ((fmLookup fm "weight".data).getD (YamlVal.int 1))
      ∧ (∀ v, fmLookup fm "title".data = some v →
          fmLookup (convertFrontmatter fm) "linkTitle".data = some v)
      ∧ (fmLookup fm "title".data = none →
          fmLookup (convertFrontmatter fm) "linkTitle".data = none) := by
  intro fm
  refine ⟨?_, ?_, ?_, ?_, ?_⟩
  · intro k hk hw hl
    simp only [fieldMapping, List.map_cons, List.map_nil, List.mem_cons,
      List.not_mem_nil, or_false, not_or] at hk
    obtain ⟨k1, k2, k3, k4, k5⟩ := hk
    have n1 : ¬ "title".data = k := fun h => k1 h.symm
    have n2 : ¬ "description".data = k := fun h => k2 h.symm
    have n3 : ¬ "project_path".data = k := fun h => k3 h.symm
    have n4 : ¬ "book_path".data = k := fun h => k4 h.symm
    have n5 : ¬ "toc".data = k := fun h => k5 h.symm
    have n6 : ¬ "weight".data = k := fun h => hw h.symm
    have n7 : ¬ "linkTitle".data = k := fun h => hl h.symm
    rw [convertFrontmatter_eq fm]
    rcases h1 : fmLookup fm "title".data with _ | v1 <;>
      simp [fmLookup_append, fmLookup_optPair_ne fm _ k n1, fmLookup_optPair_ne fm _ k n2,
        fmLookup_optPair_ne fm _ k n3, fmLookup_optPair_ne fm _ k n4,
        fmLookup_optPair_ne fm _ k n5, fmLookup, n6, n7, h1]
  · intro p hp
    rw [convertFrontmatter_eq fm]
    simp only [fieldMapping, List.mem_cons, List.not_mem_nil, or_false] at hp
    rcases hp with h | h | h | h | h <;> subst h <;>
      rcases h1 : fmLookup fm "title".data with _ | v1 <;>
      rcases h2 : fmLookup fm "description".data with _ | v2 <;>
      rcases h3 : fmLookup fm "project_path".data with _ | v3 <;>
      rcases h4 : fmLookup fm "book_path".data with _ | v4 <;>
      rcases h5 : fmLookup fm "toc".data with _ | v5 <;>
      simp +decide [fmLookup_append, optPair, fmLookup, h1, h2, h3, h4, h5]
  · rw [convertFrontmatter_eq fm]
    rcases h1 : fmLookup fm "title".data with _ | v1 <;>
      rcases h2 : fmLookup fm "description".data with _ | v2 <;>
      rcases h3 : fmLookup fm "project_path".data with _ | v3 <;>
      rcases h4 : fmLookup fm "book_path".data with _ | v4 <;>
      rcases h5 : fmLookup fm "toc".data with _ | v5 <;>
      simp +decide [fmLookup_append, optPair, fmLookup, h1, h2, h3, h4, h5]
  · intro v hv
    rw [convertFrontmatter_eq fm]
    rcases h2 : fmLookup fm "description".data with _ | v2 <;>
      rcases h3 : fmLookup fm "project_path".data with _ | v3 <;>
      rcases h4 : fmLookup fm "book_path".data with _ | v4 <;>
      rcases h5 : fmLookup fm "toc".data with _ | v5 <;>
      simp +decide [fmLookup_append, optPair, fmLookup, hv, h2, h3, h4, h5]
  · intro hv
    rw [convertFrontmatter_eq fm]
    rcases h2 : fmLookup fm "description".data with _ | v2 <;>
      rcases h3 : fmLookup fm "project_path".data with _ | v3 <;>
      rcases h4 : fmLookup fm "book_path".data with _ | v4 <;>
      rcases h5 : fmLookup fm "toc".data with _ | v5 <;>
      simp +decide [fmLookup_append, optPair, fmLookup, hv, h2, h3, h4, h5]

/-- C9 witness: the mapper applied to a concrete frontmatter with an
unmapped key, a missing weight, and a present title. -/
theorem claim_C9_witness :
    fmLookup (convertFrontmatter
        [("book_path".data, YamlVal.str "b".data), ("project_path".data, YamlVal.str "p".data),
         ("title".data, YamlVal.str "Setup".data), ("junk".data, YamlVal.bool true)])
        "junk".data = none
    ∧ fmLookup (convertFrontmatter
        [("book_path".data, YamlVal.str "b".data), ("project_path".data, YamlVal.str "p".data),
         ("title".data, YamlVal.str "Setup".data), ("junk".data, YamlVal.bool true)])
        "weight".data = some ((fmLookup
        [("book_path".data, YamlVal.str "b".data), ("project_path".data, YamlVal.str "p".data),
         ("title".data, YamlVal.str "Setup".data), ("junk".data, YamlVal.bool true)]
        "weight".data).getD (YamlVal.int 1))
    ∧ fmLookup (convertFrontmatter
        [("book_path".data, YamlVal.str "b".data), ("project_path".data, YamlVal.str "p".data),
         ("title".data, YamlVal.str "Setup".data), ("junk".data, YamlVal.bool true)])
        "linkTitle".data = some (YamlVal.str "Setup".data) :=
  ⟨(claim_C9 _).1 "junk".data (by decide) (by decide) (by decide),
   (claim_C9 _).2.2.1,
   (claim_C9 _).2.2.2.1 (YamlVal.str "Setup".data) (by decide)⟩

theorem beginsWith_iff (p : List Char) : ∀ s, beginsWith p s = true ↔ ∃ t, s = p ++ t := by
  induction p with
  | nil => intro s; simp [beginsWith]
  | cons a p' ih =>
    intro s
    cases s with
    | nil => simp [beginsWith]
    | cons c cs =>
      simp only [beginsWith, Bool.and_eq_true, decide_eq_true_eq, ih cs, List.cons_append,
        List.cons.injEq]
      constructor
      · rintro ⟨hac, t, rfl⟩; exact ⟨t, hac.symm, rfl⟩
      · rintro ⟨t, hca, rfl⟩; exact ⟨hca.symm, t, rfl⟩

theorem removeWsChars_append (a b : List Char) :
    removeWsChars (a ++ b) = removeWsChars a ++ removeWsChars b := by
  simp [removeWsChars, List.filter_append]

theorem beginsWith_removeWsChars (p u : List Char) (hp : ∀ c ∈ p, pyWs c = false)
    (h : beginsWith p u = true) : beginsWith p (removeWsChars u) = true := by
  obtain ⟨t, rfl⟩ := (beginsWith_iff p u).mp h
  rw [removeWsChars_append]
  have hself : removeWsChars p = p := by
    unfold removeWsChars
    apply List.filter_eq_self.mpr
    intro c hc
    simp [hp c hc]
  rw [hself]
  exact (beginsWith_iff p _).mpr ⟨removeWsChars t, rfl⟩

theorem anchor_not_external (u : List Char) (h : beginsWith "#".data u = true) :
    externalSchemes.any (fun p => beginsWith p u) = false := by
  obtain ⟨t, rfl⟩ := (beginsWith_iff "#".data u).mp h
  simp +decide [externalSchemes, beginsWith]

/-- C2 (amended): for a link `[text](url)` whose whitespace-cleaned url ends
in `.md` and is neither external nor a same-page anchor, the rewriter
removes every occurrence of the substring `.md` from the cleaned url, strips
one leading `./` and then one leading `/` (leaving a leading `../` intact),
and produces the root-relative target `/<normalized>/` with the link text
unchanged; a link whose url begins with one of the external schemes, or with
`#`, is returned byte-for-byte. -/
theorem claim_C2_amended :
    ∀ text url,
      ((∃ p ∈ externalSchemes, beginsWith p url = true) →
        replaceLink text url = '[' :: text ++ ']' :: '(' :: url ++ [')'])
      ∧ (beginsWith "#".data url = true →
        replaceLink text url = '[' :: text ++ ']' :: '(' :: url ++ [')'])
      ∧ (endsWith ".md".data (removeWsChars url) = true →
        (∀ p ∈ externalSchemes, beginsWith p (removeWsChars url) = false) →
        beginsWith "#".data (removeWsChars url) = false →
        replaceLink text url = '[' :: text ++ "](/".data ++
          stripLeadSlash (stripLeadDotSlash (replaceAllMd (removeWsChars url))) ++
          "/)".data) := by
  intro text url
  refine ⟨?_, ?_, ?_⟩
  · rintro ⟨p, hp, hb⟩
    have hpe : ∀ c ∈ p, pyWs c = false := by
      simp only [externalSchemes, List.mem_cons, List.not_mem_nil, or_false] at hp
      rcases hp with h | h | h | h | h <;> subst h <;> decide
    have hbw : beginsWith p (removeWsChars url) = true := beginsWith_removeWsChars p url hpe hb
    have hany : externalSchemes.any (fun q => beginsWith q (removeWsChars url)) = true :=
      List.any_eq_true.mpr ⟨p, hp, hbw⟩
    simp [replaceLink, hany]
  · intro hb
    have hbw : beginsWith "#".data (removeWsChars url) = true :=
      beginsWith_removeWsChars "#".data url (by decide) hb
    have hany := anchor_not_external (removeWsChars url) hbw
    simp [replaceLink, hany, hbw]
  · intro hmd hext hhash
    have hany : externalSchemes.any (fun q => beginsWith q (removeWsChars url)) = false := by
      cases hx : externalSchemes.any (fun q => beginsWith q (removeWsChars url)) with
      | false => rfl
      | true =>
        obtain ⟨p, hp, hb⟩ := List.any_eq_true.mp hx
        rw [hext p hp] at hb
        exact absurd hb (by simp)
    simp [replaceLink, hany, hhash, hmd]

/-- C2 counterexample: the spec's own example `[Guide](../foo/bar.md)` is
rewritten to `[Guide](/../foo/bar/)` — the leading `../` is not stripped —
and not to the claimed `[Guide](/foo/bar/)`. -/
theorem claim_C2_counterexample :
    convertInternalLinks "[Guide](../foo/bar.md)".data = "[Guide](/../foo/bar/)".data
    ∧ "[Guide](/../foo/bar/)".data ≠ "[Guide](/foo/bar/)".data := by
  refine ⟨by decide, by decide⟩

/-- C2 witness: the amended theorem applied to a concrete internal link and
a concrete external link. -/
theorem claim_C2_witness :
    replaceLink "Guide".data "./foo/bar.md".data = '[' :: "Guide".data ++ "](/".data ++
        stripLeadSlash (stripLeadDotSlash (replaceAllMd (removeWsChars "./foo/bar.md".data))) ++
        "/)".data
    ∧ replaceLink "Ext".data "https://example.com/x.md".data
        = '[' :: "Ext".data ++ ']' :: '(' :: "https://example.com/x.md".data ++ [')'] :=
  ⟨(claim_C2_amended "Guide".data "./foo/bar.md".data).2.2 (by decide) (by decide) (by decide),
   (claim_C2_amended "Ext".data "https://example.com/x.md".data).1
     ⟨"https://".data, by decide, by decide⟩⟩

theorem convertFileStep_counts (mapping : List (String × String))
    (convertOk : List String → Bool) (st : ConversionStats) (f : List String) :
    (convertFileStep mapping convertOk st f).total = st.total + 1
    ∧ (convertFileStep mapping convertOk st f).converted
        + (convertFileStep mapping convertOk st f).skipped
        + (convertFileStep mapping convertOk st f).errors
      = st.converted + st.skipped + st.errors + 1 := by
  unfold convertFileStep
  cases getCategoryPath mapping f with
  | error e => simp; omega
  | ok cat =>
    by_cases hc : cat = ["how-to-guides"]
    · simp [hc]; omega
    · by_cases ho : convertOk f = true
      · simp [hc, ho]; omega
      · simp [hc, ho]; omega

theorem convertContentFiles_fold (mapping : List (String × String))
    (convertOk : List String → Bool) :
    ∀ (files : List (List String)) (st : ConversionStats),
      (files.foldl (convertFileStep mapping convertOk) st).total = st.total + files.length
      ∧ (files.foldl (convertFileStep mapping convertOk) st).converted
          + (files.foldl (convertFileStep mapping convertOk) st).skipped
          + (files.foldl (convertFileStep mapping convertOk) st).errors
        = st.converted + st.skipped + st.errors + files.length := by
  intro files
  induction files with
  | nil => intro st; simp
  | cons f fs ih =>
    intro st
    have hstep := convertFileStep_counts mapping convertOk st f
    have hrec := ih (convertFileStep mapping convertOk st f)
    simp only [List.foldl_cons, List.length_cons]
    omega

/-- C6: over a tree with one valid document, one document under an unmapped
section, and one document whose section is mapped to the disallowed legacy
category `how-to-guides`, the batch loop yields `converted = 2`,
`errors = 1`: the unmapped-section document is surfaced as a per-document
error without aborting the batch, but the `how-to-guides` document is
converted, not errored — the disallowed-category guard compares the full
category path against `how-to-guides` and never fires.  In general every
file is accounted for (the batch always runs to completion and returns
non-fatally): `total` equals the number of files and
`converted + skipped + errors = total`. -/
theorem claim_C6 :
    (convertContentFiles [("docs-sec", "docs"), ("guides", "how-to-guides")]
        (fun _ => true)
        [["docs-sec", "ok.md"], ["unmapped", "b.md"], ["guides", "a.md"]]
      = ⟨3, 2, 0, 1⟩)
    ∧ (∀ (mapping : List (String × String)) (convertOk : List String → Bool)
        (files : List (List String)),
        (convertContentFiles mapping convertOk files).total = files.length
        ∧ (convertContentFiles mapping convertOk files).converted
            + (convertContentFiles mapping convertOk files).skipped
            + (convertContentFiles mapping convertOk files).errors
          = files.length) := by
  constructor
  · rfl
  · intro mapping convertOk files
    have h := convertContentFiles_fold mapping convertOk files ⟨0, 0, 0, 0⟩
    simp only [Nat.zero_add] at h
    unfold convertContentFiles
    exact ⟨by omega, by omega⟩

theorem annotateGo_stale (pats : List (List Char × List (List Char))) :
    ∀ lines (b b' : Bool) (cl cl' : List (List Char)) (ind ind' : List Char),
      annotateGo pats lines false b cl ind = annotateGo pats lines false b' cl' ind'
      ∧ annotateGo pats lines true false cl ind = annotateGo pats lines true false cl' ind' := by
  intro lines
  induction lines with
  | nil => intro b b' cl cl' ind ind'; exact ⟨rfl, rfl⟩
  | cons l rest ih =>
    intro b b' cl cl' ind ind'
    constructor
    · by_cases hf : isFenceLine l = true
      · by_cases ha : fenceAfter l = []
        · simp [annotateGo, hf, ha]
        · simp [annotateGo, hf, ha, (ih b b' cl cl' (fenceIndentOf l) (fenceIndentOf l)).2]
      · simp [annotateGo, hf, (ih b b' cl cl' ind ind').1]
    · by_cases hf : isFenceLine l = true
      · simp [annotateGo, hf, (ih false false cl cl' ind ind').1]
      · simp [annotateGo, hf, (ih b b' cl cl' ind ind').2]

theorem annotateGo_labeled (pats : List (List Char × List (List Char))) :
    ∀ body, (∀ m ∈ body, isFenceLine m = false) →
      ∀ close, isFenceLine close = true → ∀ rest cl ind,
      annotateGo pats (body ++ close :: rest) true false cl ind
        = body ++ close :: annotateGo pats rest false false cl ind := by
  intro body
  induction body with
  | nil => intro _ close hc rest cl ind; simp [annotateGo, hc]
  | cons m ms ih =>
    intro hb close hc rest cl ind
    have hm : isFenceLine m = false := hb m (by simp)
    have ih' := ih (fun x hx => hb x (by simp [hx])) close hc rest cl ind
    simp [annotateGo, hm, ih']

theorem annotateGo_unlabeled (pats : List (List Char × List (List Char))) :
    ∀ body, (∀ m ∈ body, isFenceLine m = false) →
      ∀ close, isFenceLine close = true → ∀ rest cl ind,
      annotateGo pats (body ++ close :: rest) true true cl ind
        = emitAnnotated pats ind (cl ++ body) ++ annotateGo pats rest false false [] ind := by
  intro body
  induction body with
  | nil => intro _ close hc rest cl ind; simp [annotateGo, hc]
  | cons m ms ih =>
    intro hb close hc rest cl ind
    have hm : isFenceLine m = false := hb m (by simp)
    have ih' := ih (fun x hx => hb x (by simp [hx])) close hc rest (cl ++ [m]) ind
    simp [annotateGo, hm, ih', List.append_assoc]

theorem annotateGo_unlabeled_eof (pats : List (List Char × List (List Char))) :
    ∀ body, (∀ m ∈ body, isFenceLine m = false) → ∀ cl ind,
      annotateGo pats body true true cl ind = emitAnnotated pats ind (cl ++ body) := by
  intro body
  induction body with
  | nil => intro _ cl ind; simp [annotateGo]
  | cons m ms ih =>
    intro hb cl ind
    have hm : isFenceLine m = false := hb m (by simp)
    have ih' := ih (fun x hx => hb x (by simp [hx])) (cl ++ [m]) ind
    simp [annotateGo, hm, ih', List.append_assoc]

/-- C5: the code-fence annotator.  `determine_language` picks, in order:
`text` for empty/whitespace-only content; `text` when the stripped content
starts with `/` or the content contains one of the tree-drawing
(box-drawing) characters `└`, `├`, `│`; otherwise the first configured
language one of whose configured substrings occurs literally in the
content; otherwise `text`.  A labeled fence (opening marker with a nonempty
tag) is copied through verbatim including its content and closing fence,
with no inference; an unlabeled fence is re-emitted with the inferred tag
around its buffered content; an unterminated unlabeled fence at end of
document is annotated the same way from whatever content was buffered; and
lines outside fences pass through unchanged. -/
theorem claim_C5 :
    ∀ pats : List (List Char × List (List Char)),
      (∀ cc, stripWs cc = [] → determineLanguage pats cc = "text".data)
      ∧ (∀ cc, stripWs cc ≠ [] →
          (beginsWith "/".data (stripWs cc) || cc.any isTreeChar) = true →
          determineLanguage pats cc = "text".data)
      ∧ (∀ cc lang, stripWs cc ≠ [] →
          (beginsWith "/".data (stripWs cc) || cc.any isTreeChar) = false →
          firstLangMatch pats cc = some lang → determineLanguage pats cc = lang)
      ∧ (∀ cc, stripWs cc ≠ [] →
          (beginsWith "/".data (stripWs cc) || cc.any isTreeChar) = false →
          firstLangMatch pats cc = none → determineLanguage pats cc = "text".data)
      ∧ (∀ openL body close rest, isFenceLine openL = true → fenceAfter openL ≠ [] →
          (∀ m ∈ body, isFenceLine m = false) → isFenceLine close = true →
          annotateLines pats (openL :: body ++ close :: rest)
            = openL :: body ++ close :: annotateLines pats rest)
      ∧ (∀ openL body close rest, isFenceLine openL = true → fenceAfter openL = [] →
          (∀ m ∈ body, isFenceLine m = false) → isFenceLine close = true →
          annotateLines pats (openL :: body ++ close :: rest)
            = emitAnnotated pats (fenceIndentOf openL) body ++ annotateLines pats rest)
      ∧ (∀ openL body, isFenceLine openL = true → fenceAfter openL = [] →
          (∀ m ∈ body, isFenceLine m = false) →
          annotateLines pats (openL :: body)
            = emitAnnotated pats (fenceIndentOf openL) body)
      ∧ (∀ l rest, isFenceLine l = false →
          annotateLines pats (l :: rest) = l :: annotateLines pats rest) := by
  intro pats
  refine ⟨?_, ?_, ?_, ?_, ?_, ?_, ?_, ?_⟩
  · intro cc h; simp [determineLanguage, h]
  · intro cc h hb; simp [determineLanguage, h, hb]
  · intro cc lang h hb hf; simp [determineLanguage, h, hb, hf]
  · intro cc h hb hf; simp [determineLanguage, h, hb, hf]
  · intro openL body close rest hfo hao hb hc
    unfold annotateLines
    have hlab := annotateGo_labeled pats body hb close hc rest [] (fenceIndentOf openL)
    have hst := (annotateGo_stale pats rest false false [] [] (fenceIndentOf openL) []).1
    simp [annotateGo, hfo, hao, hlab, hst]
  · intro openL body close rest hfo hao hb hc
    unfold annotateLines
    have hunl := annotateGo_unlabeled pats body hb close hc rest [] (fenceIndentOf openL)
    have hst := (annotateGo_stale pats rest false false [] [] (fenceIndentOf openL) []).1
    simp [annotateGo, hfo, hao, hunl, hst]
  · intro openL body hfo hao hb
    unfold annotateLines
    have heof := annotateGo_unlabeled_eof pats body hb [] (fenceIndentOf openL)
    simp [annotateGo, hfo, hao, heof]
  · intro l rest hf
    unfold annotateLines
    simp [annotateGo, hf]

/-- C5 witness: the annotator applied to a concrete labeled fence (copied
verbatim), a concrete unlabeled fence (annotated via the configured table),
and a concrete unterminated unlabeled fence. -/
theorem claim_C5_witness :
    annotateLines [("python".data, ["def ".data])]
        ("```py\n".data :: ["def f\n".data] ++ "```\n".data :: [])
      = "```py\n".data :: ["def f\n".data] ++ "```\n".data ::
          annotateLines [("python".data, ["def ".data])] []
    ∧ annotateLines [("python".data, ["def ".data])]
        ("```\n".data :: ["def f():\n".data] ++ "```\n".data :: [])
      = emitAnnotated [("python".data, ["def ".data])] (fenceIndentOf "```\n".data)
          ["def f():\n".data]
          ++ annotateLines [("python".data, ["def ".data])] []
    ∧ annotateLines [("python".data, ["def ".data])] ("```\n".data :: ["import x\n".data])
      = emitAnnotated [("python".data, ["def ".data])] (fenceIndentOf "```\n".data)
          ["import x\n".data]
    ∧ determineLanguage [("python".data, ["def ".data])] "def f():".data = "python".data :=
  ⟨(claim_C5 [("python".data, ["def ".data])]).2.2.2.2.1 "```py\n".data ["def f\n".data]
      "```\n".data [] (by decide) (by decide) (by decide) (by decide),
   (claim_C5 [("python".data, ["def ".data])]).2.2.2.2.2.1 "```\n".data ["def f():\n".data]
      "```\n".data [] (by decide) (by decide) (by decide) (by decide),
   (claim_C5 [("python".data, ["def ".data])]).2.2.2.2.2.2.1 "```\n".data ["import x\n".data]
      (by decide) (by decide) (by decide),
   (claim_C5 [("python".data, ["def ".data])]).2.2.1 "def f():".data "python".data
      (by decide) (by decide) (by decide)⟩

/-- C7 counterexample: the directory-tree fixer is not idempotent.  On the
body ```` "```\n└ a\n```\n└ x\n```" ```` the first run rewrites the whole
text into a single `text`-tagged block, and the second run matches the
closing fence of that block against the trailing tree line and unmatched
fence, inserting a second `text` tag. -/
theorem claim_C7_counterexample :
    fixDirectoryStructures "```\n└ a\n```\n└ x\n```".data
      = "```text\n└ a\n```\n└ x\n```".data
    ∧ fixDirectoryStructures "```text\n└ a\n```\n└ x\n```".data
      = "```text\n└ a\n```text\n└ x\n```".data
    ∧ "```text\n└ a\n```text\n└ x\n```".data ≠ "```text\n└ a\n```\n└ x\n```".data := by
  refine ⟨by decide, by decide, by decide⟩

theorem regexRun_lit_fail (s : List Char) (ch : Char) (i : Nat)
    (h : ∀ c, s.get? i = some c → ¬ c = ch) :
    ∀ fuel caps k, regexRun s fuel (.lit ch) i caps k = none := by
  intro fuel caps k
  cases fuel with
  | zero => rfl
  | succ f =>
    simp only [regexRun]
    cases hg : s.get? i with
    | none => rfl
    | some c => simp [h c hg]

theorem regexRun_tree_fail (s : List Char) (i : Nat)
    (h : ∀ c, s.get? i = some c → ¬ c = 'f') :
    ∀ fuel caps k, regexRun s fuel treePatternRe i caps k = none := by
  intro fuel caps k
  cases fuel with
  | zero => rfl
  | succ f1 =>
    simp only [treePatternRe, regexRun]
    cases f1 with
    | zero => rfl
    | succ f2 =>
      simp only [regexRun]
      cases f2 with
      | zero => rfl
      | succ f3 =>
        have : regexLit "following directory structure".data
            = .seq (.lit 'f') (regexLit "ollowing directory structure".data) := rfl
        rw [this]
        simp only [regexRun]
        cases f3 with
        | zero => rfl
        | succ f4 => simp only [regexRun]; rw [regexRun_lit_fail s 'f' i h]

theorem regexRun_cls_fail (s : List Char) (f : Char → Bool) (i : Nat)
    (h : ∀ c, s.get? i = some c → f c = false) :
    ∀ fuel caps k, regexRun s fuel (.cls f) i caps k = none := by
  intro fuel caps k
  cases fuel with
  | zero => rfl
  | succ g =>
    simp only [regexRun]
    cases hg : s.get? i with
    | none => rfl
    | some c => simp [h c hg]

theorem regexRun_inlineTail_fail (s : List Char) (j : Nat)
    (h : ∀ c, s.get? j = some c → ¬ c = '└') :
    ∀ fuel caps k,
      regexRun s fuel (.seq (.grp 2 treeBodyRe) (.grp 3 (regexLit "```".data))) j caps k
        = none := by
  intro fuel caps k
  cases fuel with
  | zero => rfl
  | succ f1 =>
    simp only [regexRun]
    cases f1 with
    | zero => rfl
    | succ f2 =>
      simp only [regexRun, treeBodyRe]
      cases f2 with
      | zero => rfl
      | succ f3 =>
        simp only [regexRun]
        rw [regexRun_lit_fail s '└' j h]

theorem regexRun_wsStar_noneCont (s : List Char) (j : Nat)
    (hc : ∀ c, s.get? j = some c → pyWs c = false) :
    ∀ fuel caps (k : Nat → RegCaps → Option (Nat × RegCaps)),
      (∀ caps', k j caps' = none) →
      regexRun s fuel regexWsStar j caps k = none := by
  intro fuel caps k hk
  cases fuel with
  | zero => rfl
  | succ g =>
    simp only [regexWsStar, regexRun]
    rw [regexRun_cls_fail s pyWs j hc]
    simp [Option.orElse, hk caps]

theorem regexRun_seq (s : List Char) (f : Nat) (a b : RegEx) (i : Nat) (caps : RegCaps)
    (k : Nat → RegCaps → Option (Nat × RegCaps)) :
    regexRun s (f + 1) (.seq a b) i caps k
      = regexRun s f a i caps (fun j cp => regexRun s f b j cp k) := rfl

theorem regexRun_grp (s : List Char) (f : Nat) (n : Nat) (r : RegEx) (i : Nat)
    (caps : RegCaps) (k : Nat → RegCaps → Option (Nat × RegCaps)) :
    regexRun s (f + 1) (.grp n r) i caps k
      = regexRun s f r i caps (fun j cp => k j ((n, i, j) :: cp)) := rfl

theorem regexRun_eps (s : List Char) (f : Nat) (i : Nat) (caps : RegCaps)
    (k : Nat → RegCaps → Option (Nat × RegCaps)) :
    regexRun s (f + 1) .eps i caps k = k i caps := rfl

theorem regexRun_lit_step (s : List Char) (ch : Char) (i : Nat) (h : s.get? i = some ch)
    (f : Nat) (caps : RegCaps) (k : Nat → RegCaps → Option (Nat × RegCaps)) :
    regexRun s (f + 1) (.lit ch) i caps k = k (i + 1) caps := by
  simp only [regexRun, h]
  simp

theorem regexRun_fence_then (s : List Char) (i : Nat)
    (h0 : s.get? i = some '`') (h1 : s.get? (i + 1) = some '`')
    (h2 : s.get? (i + 2) = some '`')
    (hws : ∀ c, s.get? (i + 3) = some c → pyWs c = false) :
    ∀ fuel caps (k : Nat → RegCaps → Option (Nat × RegCaps)),
      (∀ caps', k (i + 3) caps' = none) →
      regexRun s fuel (.seq (regexLit "```".data) regexWsStar) i caps k = none := by
  intro fuel caps k hk
  have h1' : s.get? (i + 1) = some '`' := h1
  have h2' : s.get? (i + 1 + 1) = some '`' := h2
  have e3 : regexLit "```".data = .seq (.lit '`') (.seq (.lit '`') (.seq (.lit '`') .eps)) := rfl
  cases fuel with
  | zero => rfl
  | succ f1 =>
    rw [regexRun_seq, e3]
    cases f1 with
    | zero => rfl
    | succ f2 =>
      rw [regexRun_seq]
      cases f2 with
      | zero => rfl
      | succ f3 =>
        rw [regexRun_lit_step s '`' i h0]
        rw [regexRun_seq]
        cases f3 with
        | zero => rfl
        | succ f4 =>
          rw [regexRun_lit_step s '`' (i + 1) h1']
          rw [regexRun_seq]
          cases f4 with
          | zero => rfl
          | succ f5 =>
            rw [regexRun_lit_step s '`' (i + 1 + 1) h2']
            rw [regexRun_eps]
            exact regexRun_wsStar_noneCont s (i + 3) hws _ caps k hk

theorem regexRun_fence_fail1 (s : List Char) (i : Nat)
    (h : ∀ c, s.get? i = some c → ¬ c = '`') :
    ∀ fuel caps (k : Nat → RegCaps → Option (Nat × RegCaps)),
      regexRun s fuel (.seq (regexLit "```".data) regexWsStar) i caps k = none := by
  intro fuel caps k
  have e3 : regexLit "```".data = .seq (.lit '`') (.seq (.lit '`') (.seq (.lit '`') .eps)) := rfl
  cases fuel with
  | zero => rfl
  | succ f1 =>
    rw [regexRun_seq, e3]
    cases f1 with
    | zero => rfl
    | succ f2 =>
      rw [regexRun_seq]
      exact regexRun_lit_fail s '`' i h f2 caps _

theorem regexRun_fence_fail2 (s : List Char) (i : Nat)
    (h0 : s.get? i = some '`') (h : ∀ c, s.get? (i + 1) = some c → ¬ c = '`') :
    ∀ fuel caps (k : Nat → RegCaps → Option (Nat × RegCaps)),
      regexRun s fuel (.seq (regexLit "```".data) regexWsStar) i caps k = none := by
  intro fuel caps k
  have e3 : regexLit "```".data = .seq (.lit '`') (.seq (.lit '`') (.seq (.lit '`') .eps)) := rfl
  cases fuel with
  | zero => rfl
  | succ f1 =>
    rw [regexRun_seq, e3]
    cases f1 with
    | zero => rfl
    | succ f2 =>
      rw [regexRun_seq]
      cases f2 with
      | zero => rfl
      | succ f3 =>
        rw [regexRun_lit_step s '`' i h0]
        rw [regexRun_seq]
        exact regexRun_lit_fail s '`' (i + 1) h f3 caps _

theorem regexRun_fence_fail3 (s : List Char) (i : Nat)
    (h0 : s.get? i = some '`') (h1 : s.get? (i + 1) = some '`')
    (h : ∀ c, s.get? (i + 2) = some c → ¬ c = '`') :
    ∀ fuel caps (k : Nat → RegCaps → Option (Nat × RegCaps)),
      regexRun s fuel (.seq (regexLit "```".data) regexWsStar) i caps k = none := by
  intro fuel caps k
  have h1' : s.get? (i + 1) = some '`' := h1
  have h' : ∀ c, s.get? (i + 1 + 1) = some c → ¬ c = '`' := h
  have e3 : regexLit "```".data = .seq (.lit '`') (.seq (.lit '`') (.seq (.lit '`') .eps)) := rfl
  cases fuel with
  | zero => rfl
  | succ f1 =>
    rw [regexRun_seq, e3]
    cases f1 with
    | zero => rfl
    | succ f2 =>
      rw [regexRun_seq]
      cases f2 with
      | zero => rfl
      | succ f3 =>
        rw [regexRun_lit_step s '`' i h0]
        rw [regexRun_seq]
        cases f3 with
        | zero => rfl
        | succ f4 =>
          rw [regexRun_lit_step s '`' (i + 1) h1']
          rw [regexRun_seq]
          exact regexRun_lit_fail s '`' (i + 1 + 1) h' f4 caps _

theorem inlineTreePatternRe_eq :
    inlineTreePatternRe = RegEx.seq (.grp 1 (.seq (regexLit "```".data) regexWsStar))
      (.seq (.grp 2 treeBodyRe) (.grp 3 (regexLit "```".data))) := rfl

theorem regexRun_inline_fail1 (s : List Char) (i : Nat)
    (h : ∀ c, s.get? i = some c → ¬ c = '`') :
    ∀ fuel caps (k : Nat → RegCaps → Option (Nat × RegCaps)),
      regexRun s fuel inlineTreePatternRe i caps k = none := by
  intro fuel caps k
  cases fuel with
  | zero => rfl
  | succ f1 =>
    rw [inlineTreePatternRe_eq, regexRun_seq]
    cases f1 with
    | zero => rfl
    | succ f2 =>
      rw [regexRun_grp]
      exact regexRun_fence_fail1 s i h f2 caps _

theorem regexRun_inline_fail2 (s : List Char) (i : Nat)
    (h0 : s.get? i = some '`') (h : ∀ c, s.get? (i + 1) = some c → ¬ c = '`') :
    ∀ fuel caps (k : Nat → RegCaps → Option (Nat × RegCaps)),
      regexRun s fuel inlineTreePatternRe i caps k = none := by
  intro fuel caps k
  cases fuel with
  | zero => rfl
  | succ f1 =>
    rw [inlineTreePatternRe_eq, regexRun_seq]
    cases f1 with
    | zero => rfl
    | succ f2 =>
      rw [regexRun_grp]
      exact regexRun_fence_fail2 s i h0 h f2 caps _

theorem regexRun_inline_fail3 (s : List Char) (i : Nat)
    (h0 : s.get? i = some '`') (h1 : s.get? (i + 1) = some '`')
    (h : ∀ c, s.get? (i + 2) = some c → ¬ c = '`') :
    ∀ fuel caps (k : Nat → RegCaps → Option (Nat × RegCaps)),
      regexRun s fuel inlineTreePatternRe i caps k = none := by
  intro fuel caps k
  cases fuel with
  | zero => rfl
  | succ f1 =>
    rw [inlineTreePatternRe_eq, regexRun_seq]
    cases f1 with
    | zero => rfl
    | succ f2 =>
      rw [regexRun_grp]
      exact regexRun_fence_fail3 s i h0 h1 h f2 caps _

theorem regexRun_inline_fail_after (s : List Char) (i : Nat)
    (h0 : s.get? i = some '`') (h1 : s.get? (i + 1) = some '`')
    (h2 : s.get? (i + 2) = some '`')
    (h3 : ∀ c, s.get? (i + 3) = some c → pyWs c = false ∧ ¬ c = '└') :
    ∀ fuel caps (k : Nat → RegCaps → Option (Nat × RegCaps)),
      regexRun s fuel inlineTreePatternRe i caps k = none := by
  intro fuel caps k
  cases fuel with
  | zero => rfl
  | succ f1 =>
    rw [inlineTreePatternRe_eq, regexRun_seq]
    cases f1 with
    | zero => rfl
    | succ f2 =>
      rw [regexRun_grp]
      apply regexRun_fence_then s i h0 h1 h2 (fun c hc => (h3 c hc).1) f2 caps
      intro caps'
      exact regexRun_inlineTail_fail s (i + 3) (fun c hc => (h3 c hc).2) _ _ _

theorem regexSubGo_id (re : RegEx) (repl : List Char → RegCaps → List Char) (s : List Char)
    (h : ∀ j, regexMatchAt s re j = none) :
    ∀ fuel i, regexSubGo re repl s fuel i = s.drop i := by
  intro fuel
  induction fuel with
  | zero => intro i; rfl
  | succ f ih =>
    intro i
    simp only [regexSubGo]
    cases hd : s.drop i with
    | nil => rfl
    | cons c rest =>
      rw [h i, ih (i + 1)]
      have e1 : List.drop 1 (List.drop i s) = List.drop (i + 1) s := List.drop_drop 1 i s
      rw [hd] at e1
      simp only [List.drop_one, List.tail_cons] at e1
      rw [← e1]

theorem regexSub_id (re : RegEx) (repl : List Char → RegCaps → List Char) (s : List Char)
    (h : ∀ j, regexMatchAt s re j = none) : regexSub re repl s = s := by
  unfold regexSub
  rw [regexSubGo_id re repl s h, List.drop_zero]

theorem fixedTreeBlock_get_lo (w : List Char) :
    (fixedTreeBlock w).get? 0 = some '`' ∧ (fixedTreeBlock w).get? 1 = some '`'
    ∧ (fixedTreeBlock w).get? 2 = some '`' ∧ (fixedTreeBlock w).get? 3 = some 't'
    ∧ (fixedTreeBlock w).get? 4 = some 'e' ∧ (fixedTreeBlock w).get? 5 = some 'x'
    ∧ (fixedTreeBlock w).get? 6 = some 't' ∧ (fixedTreeBlock w).get? 7 = some '\n'
    ∧ (fixedTreeBlock w).get? 8 = some '└' := by
  refine ⟨rfl, rfl, rfl, rfl, rfl, rfl, rfl, rfl, rfl⟩

theorem fixedTreeBlock_get_mid (w : List Char) (m : Nat) (hm : m < w.length) :
    (fixedTreeBlock w).get? (9 + m) = w.get? m := by
  unfold fixedTreeBlock
  rw [List.get?_append_right (by simp)]
  rw [List.get?_append (by simpa using hm)]
  congr 1
  simp

theorem fixedTreeBlock_get_hi (w : List Char) (d : Nat) :
    (fixedTreeBlock w).get? (9 + w.length + d) = "\n```".data.get? d := by
  unfold fixedTreeBlock
  rw [List.get?_append_right (by simp; omega)]
  rw [List.get?_append_right (by simp; omega)]
  congr 1
  simp
  omega

theorem fixedTreeBlock_tree_none (w : List Char) (hf : 'f' ∉ w) :
    ∀ i, regexMatchAt (fixedTreeBlock w) treePatternRe i = none := by
  intro i
  unfold regexMatchAt
  apply regexRun_tree_fail
  intro c hc hce
  subst hce
  have hmem : 'f' ∈ fixedTreeBlock w := List.get?_mem hc
  unfold fixedTreeBlock at hmem
  rcases List.mem_append.mp hmem with h | h
  · exact absurd h (by decide)
  · rcases List.mem_append.mp h with h | h
    · exact hf h
    · exact absurd h (by decide)

theorem ne_backtick_of_get (s : List Char) (i : Nat) (ch : Char)
    (he : s.get? i = some ch) (hch : ¬ ch = '`') :
    ∀ c, s.get? i = some c → ¬ c = '`' := by
  intro c hc hce
  subst hce
  rw [he] at hc
  exact hch (Option.some.inj hc)

theorem fixedTreeBlock_inline_none (w : List Char) (hbt : '`' ∉ w) :
    ∀ i, regexMatchAt (fixedTreeBlock w) inlineTreePatternRe i = none := by
  intro i
  unfold regexMatchAt
  by_cases hlo : i < 9
  · interval_cases i
    · apply regexRun_inline_fail_after (fixedTreeBlock w) 0 rfl rfl rfl
      intro c hc
      have hc' : (fixedTreeBlock w).get? 3 = some c := hc
      have e : (fixedTreeBlock w).get? 3 = some 't' := rfl
      rw [e] at hc'
      cases hc'
      decide
    · apply regexRun_inline_fail3 (fixedTreeBlock w) 1 rfl rfl
      intro c hc hce
      subst hce
      have hc' : (fixedTreeBlock w).get? 3 = some '`' := hc
      have e : (fixedTreeBlock w).get? 3 = some 't' := rfl
      rw [e] at hc'
      exact absurd (Option.some.inj hc') (by decide)
    · apply regexRun_inline_fail2 (fixedTreeBlock w) 2 rfl
      intro c hc hce
      subst hce
      have hc' : (fixedTreeBlock w).get? 3 = some '`' := hc
      have e : (fixedTreeBlock w).get? 3 = some 't' := rfl
      rw [e] at hc'
      exact absurd (Option.some.inj hc') (by decide)
    · exact regexRun_inline_fail1 (fixedTreeBlock w) 3
        (ne_backtick_of_get (fixedTreeBlock w) 3 't' rfl (by decide)) _ _ _
    · exact regexRun_inline_fail1 (fixedTreeBlock w) 4
        (ne_backtick_of_get (fixedTreeBlock w) 4 'e' rfl (by decide)) _ _ _
    · exact regexRun_inline_fail1 (fixedTreeBlock w) 5
        (ne_backtick_of_get (fixedTreeBlock w) 5 'x' rfl (by decide)) _ _ _
    · exact regexRun_inline_fail1 (fixedTreeBlock w) 6
        (ne_backtick_of_get (fixedTreeBlock w) 6 't' rfl (by decide)) _ _ _
    · exact regexRun_inline_fail1 (fixedTreeBlock w) 7
        (ne_backtick_of_get (fixedTreeBlock w) 7 '\n' rfl (by decide)) _ _ _
    · exact regexRun_inline_fail1 (fixedTreeBlock w) 8
        (ne_backtick_of_get (fixedTreeBlock w) 8 '└' rfl (by decide)) _ _ _
  · by_cases hmid : i < 9 + w.length
    · obtain ⟨m, rfl⟩ : ∃ m, i = 9 + m := ⟨i - 9, by omega⟩
      have hm : m < w.length := by omega
      apply regexRun_inline_fail1
      intro c hc hce
      subst hce
      rw [fixedTreeBlock_get_mid w m hm] at hc
      exact hbt (List.get?_mem hc)
    · obtain ⟨d, rfl⟩ : ∃ d, i = 9 + w.length + d := ⟨i - (9 + w.length), by omega⟩
      have hnil : ∀ e : Nat, "\n```".data.get? (e + 4) = none := by
        intro e
        apply List.get?_eq_none.mpr
        simp
      rcases d with _ | _ | _ | _ | e
      · apply regexRun_inline_fail1
        intro c hc hce
        subst hce
        rw [fixedTreeBlock_get_hi w 0] at hc
        exact absurd (Option.some.inj hc) (by decide)
      · apply regexRun_inline_fail_after
        · exact (fixedTreeBlock_get_hi w 1).trans rfl
        · exact (fixedTreeBlock_get_hi w 2).trans rfl
        · exact (fixedTreeBlock_get_hi w 3).trans rfl
        · intro c hc
          have hc' : (none : Option Char) = some c :=
            (show ("\n```".data.get? 4 : Option Char) = none from rfl).symm.trans
              ((fixedTreeBlock_get_hi w 4).symm.trans hc)
          exact Option.noConfusion hc'
      · apply regexRun_inline_fail3
        · exact (fixedTreeBlock_get_hi w 2).trans rfl
        · exact (fixedTreeBlock_get_hi w 3).trans rfl
        · intro c hc
          have hc' : (none : Option Char) = some c :=
            (show ("\n```".data.get? 4 : Option Char) = none from rfl).symm.trans
              ((fixedTreeBlock_get_hi w 4).symm.trans hc)
          exact Option.noConfusion hc'
      · apply regexRun_inline_fail2
        · exact (fixedTreeBlock_get_hi w 3).trans rfl
        · intro c hc
          have hc' : (none : Option Char) = some c :=
            (show ("\n```".data.get? 4 : Option Char) = none from rfl).symm.trans
              ((fixedTreeBlock_get_hi w 4).symm.trans hc)
          exact Option.noConfusion hc'
      · apply regexRun_inline_fail1
        intro c hc hce
        have hc' : "\n```".data.get? (e + 4) = some c :=
          (fixedTreeBlock_get_hi w (e + 4)).symm.trans hc
        rw [hnil e] at hc'
        exact absurd hc' (by simp)

theorem fixedTreeBlock_fixpoint (w : List Char) (hbt : '`' ∉ w) (hf : 'f' ∉ w) :
    fixDirectoryStructures (fixedTreeBlock w) = fixedTreeBlock w := by
  unfold fixDirectoryStructures
  rw [regexSub_id _ _ _ (fixedTreeBlock_tree_none w hf)]
  rw [regexSub_id _ _ _ (fixedTreeBlock_inline_none w hbt)]

/-- C7 (amended): the directory-tree block fixer is not idempotent on every
body, but it is idempotent on every body whose fixer output is a single
`text`-tagged fenced tree block (` ```text\n└<w>\n``` ` for any `<w>`
containing no backtick and no letter `f`): on such an output neither
substitution finds a further match, so the second run returns its input
unchanged.  It is also idempotent on the concrete single-tree-block bodies
below, one already fenced and one introduced by the
`following directory structure` phrase. -/
theorem claim_C7_amended :
    (∀ body w, '`' ∉ w → 'f' ∉ w →
      fixDirectoryStructures body = fixedTreeBlock w →
      fixDirectoryStructures (fixDirectoryStructures body) = fixDirectoryStructures body)
    ∧ fixDirectoryStructures (fixDirectoryStructures "```\n└ a\n```".data)
        = fixDirectoryStructures "```\n└ a\n```".data
    ∧ fixDirectoryStructures
          (fixDirectoryStructures "following directory structure:\n└ a".data)
        = fixDirectoryStructures "following directory structure:\n└ a".data := by
  refine ⟨?_, by decide, by decide⟩
  intro body w hbt hf hfix
  rw [hfix]
  exact fixedTreeBlock_fixpoint w hbt hf

/-- C7 witness: the amended theorem applied to a concrete fenced tree
block, whose fixer output is the fixed block with `<w> = " a"`. -/
theorem claim_C7_witness :
    fixDirectoryStructures (fixDirectoryStructures "```\n└ a\n```".data)
      = fixDirectoryStructures "```\n└ a\n```".data :=
  claim_C7_amended.1 "```\n└ a\n```".data " a".data (by decide) (by decide) (by decide)
